import Mathlib

/-!
Verification of the single-tape deterministic Turing-machine simulator
(`src/core/machine.py` together with its data classes `Transition`,
`MachineConfig`, `State`, `InstantDescription`).

The Python code is shallowly embedded: each Python method becomes a Lean
function over explicit state.  The mutable tape (a Python `list`) becomes a
`List String` threaded through the functions; the `while True` loop of
`Machine.run` becomes a fuel-indexed recursive function `Machine.runLoop`
(returning `none` exactly when the fuel runs out, which models a
non-terminating run when no step ceiling would stop it).
-/

namespace TM

/-- Embeds `Transition` (src/core/transition.py): one deterministic rule. -/
structure Transition where
  current_state : String
  read_symbol : String
  write_symbol : String
  move : String
  next_state : String
deriving DecidableEq, Repr

/-- `Transition.signature`: the lookup key `(current_state, read_symbol)`. -/
def Transition.signature (t : Transition) : String × String :=
  (t.current_state, t.read_symbol)

/-- The `__post_init__` validation of `Transition`: the move is one of
`L`/`R`/`S` and every string field is non-empty. -/
def Transition.valid (t : Transition) : Prop :=
  (t.move = "L" ∨ t.move = "R" ∨ t.move = "S") ∧
    t.current_state ≠ "" ∧ t.read_symbol ≠ "" ∧
    t.write_symbol ≠ "" ∧ t.next_state ≠ ""

instance (t : Transition) : Decidable t.valid := by
  unfold Transition.valid; infer_instance

/-- Embeds `MachineConfig` (src/core/machine_config.py).  The structure keeps
the raw fields; the `__post_init__` checks are expressed separately as
`MachineConfig.valid`. -/
structure MachineConfig where
  states : List String
  input_alphabet : List String
  tape_alphabet : List String
  initial_state : String
  accept_states : List String
  transitions : List Transition
  blank_symbol : String := "B"
deriving DecidableEq, Repr

/-- The `__post_init__` validation of `MachineConfig`. -/
def MachineConfig.valid (c : MachineConfig) : Prop :=
  c.states ≠ [] ∧
    (∀ a ∈ c.input_alphabet, a ∈ c.tape_alphabet) ∧
    c.initial_state ≠ "" ∧ c.initial_state ∈ c.states ∧
    (∀ s ∈ c.accept_states, s ∈ c.states) ∧
    c.blank_symbol ∈ c.tape_alphabet ∧
    c.transitions ≠ [] ∧ (∀ t ∈ c.transitions, t.valid)

instance (c : MachineConfig) : Decidable c.valid := by
  unfold MachineConfig.valid; infer_instance

/-- Embeds `InstantDescription` (src/core/instant_description.py): the
configuration snapshot stored in the trace.  `head_position` is a `Nat`
because the simulator never produces a negative index (the `__post_init__`
check rejects negatives). -/
structure InstantDescription where
  state : String
  tape : String
  head_position : Nat
deriving DecidableEq, Repr

/-- The two construction-time errors of `Machine._build_transition_map`
(both `ValueError`s in Python; the spec names them `DuplicateTransition`
and `DanglingState`). -/
inductive BuildError where
  | duplicateTransition (signature : String × String)
  | danglingState (name : String)
deriving DecidableEq, Repr

/-- Lookup in the transition map (Python `dict.get`); the map is modelled
as an association list in insertion order, with unique keys by
construction. -/
def lookupTransition (map : List ((String × String) × Transition))
    (key : String × String) : Option Transition :=
  (map.find? (fun p => p.1 = key)).map (·.2)

/-- Embeds `Machine._build_transition_map`: folds the transitions into the
`(state, symbol) → Transition` table, rejecting a duplicate signature first,
then an undeclared source state, then an undeclared destination state —
in the order the Python loop checks them. -/
def buildTransitionMap (states : List String) :
    List Transition → List ((String × String) × Transition) →
      Except BuildError (List ((String × String) × Transition))
  | [], acc => .ok acc
  | t :: ts, acc =>
    if (lookupTransition acc t.signature).isSome then
      .error (.duplicateTransition t.signature)
    else if t.current_state ∉ states then
      .error (.danglingState t.current_state)
    else if t.next_state ∉ states then
      .error (.danglingState t.next_state)
    else
      buildTransitionMap states ts (acc ++ [(t.signature, t)])

/-- Embeds the `Machine` object (src/core/machine.py): the configuration,
the optional step ceiling and the derived transition map. -/
structure Machine where
  config : MachineConfig
  max_steps : Option Nat
  transition_map : List ((String × String) × Transition)
deriving DecidableEq, Repr

/-- Embeds `Machine.__init__`: construction either fails while building the
transition map or yields the machine. -/
def Machine.make (config : MachineConfig) (max_steps : Option Nat) :
    Except BuildError Machine :=
  (buildTransitionMap config.states config.transitions []).map
    (fun tm => { config := config, max_steps := max_steps, transition_map := tm })

/-- Embeds `Machine._snapshot`: the tape list is joined into one string. -/
def Machine.snapshot (current_state : String) (tape : List String)
    (head_index : Nat) : InstantDescription :=
  { state := current_state, tape := String.join tape, head_position := head_index }

/-- Embeds `Machine._initialize_tape`. -/
def initializeTape (blank : String) (input : List Char) : List String :=
  if input.isEmpty then [blank] else input.map (fun c => String.singleton c)

/-- Embeds `Machine._move_head`: returns the new head index and the
(possibly extended) tape. -/
def moveHead (blank : String) (head_index : Nat) (move : String)
    (tape : List String) : Nat × List String :=
  if move = "L" then
    if head_index = 0 then (0, blank :: tape)
    else (head_index - 1, tape)
  else if move = "R" then
    if head_index + 1 = tape.length then (head_index + 1, tape ++ [blank])
    else (head_index + 1, tape)
  else (head_index, tape)

/-- The offending characters of `Machine._validate_input_string`: the input
characters (as the one-character strings Python's `list(...)` yields) that
are not in the input alphabet. -/
def invalidSymbolsOf (input_alphabet : List String) (input : List Char) :
    List Char :=
  input.filter (fun ch => String.singleton ch ∉ input_alphabet)

/-- `sorted(set(xs))`: the deduplicated, sorted list of offending
characters reported in the `InvalidSymbol` error message. -/
def sortedDedup (xs : List Char) : List Char :=
  xs.dedup.mergeSort (fun a b => a ≤ b)

/-- The per-run error of `Machine.run` (`InvalidSymbol` in the spec),
carrying the sorted deduplicated offending characters of its message. -/
inductive RunError where
  | invalidSymbol (symbols : List Char)
deriving DecidableEq, Repr

/-- Embeds the `while True` loop of `Machine.run`.  `fuel` only bounds the
number of iterations Lean will unfold: `none` means the fuel was exhausted
before the Python loop would have returned. -/
def Machine.runLoop (m : Machine) : Nat → List String → Nat → String →
    List InstantDescription → Nat → Option (List InstantDescription × Bool)
  | 0, _, _, _, _, _ => none
  | fuel + 1, tape, head_index, current_state, history, steps =>
    let symbol := tape.getD head_index ""
    match lookupTransition m.transition_map (current_state, symbol) with
    | none => some (history, false)
    | some t =>
      let tape1 := tape.set head_index t.write_symbol
      let state1 := t.next_state
      let moved := moveHead m.config.blank_symbol head_index t.move tape1
      let head1 := moved.1
      let tape2 := moved.2
      let steps1 := steps + 1
      let history1 := history ++ [Machine.snapshot state1 tape2 head1]
      if state1 ∈ m.config.accept_states then some (history1, true)
      else
        match m.max_steps with
        | some n =>
          if n ≤ steps1 then some (history1, decide (state1 ∈ m.config.accept_states))
          else m.runLoop fuel tape2 head1 state1 history1 steps1
        | none => m.runLoop fuel tape2 head1 state1 history1 steps1

/-- Embeds `Machine.run`: validate the input, initialize the tape, take the
initial snapshot, apply the immediate-accept rule, then enter the loop. -/
def Machine.run (m : Machine) (input : List Char) (fuel : Nat) :
    Except RunError (Option (List InstantDescription × Bool)) :=
  let invalid := invalidSymbolsOf m.config.input_alphabet input
  if invalid ≠ [] then
    .error (.invalidSymbol (sortedDedup invalid))
  else
    let tape := initializeTape m.config.blank_symbol input
    let head_index : Nat := 0
    let current_state := m.config.initial_state
    let history := [Machine.snapshot current_state tape head_index]
    if current_state ∈ m.config.accept_states then .ok (some (history, true))
    else .ok (m.runLoop fuel tape head_index current_state history 0)

end TM

namespace TM

/-- C2: Head movement policy of `Machine._move_head`: a Left move at index 0
prepends exactly one blank (length grows by 1, every pre-existing symbol
shifts right by one, head stays at 0); a Left move at a positive index only
decrements the head; a Right move at the last index appends exactly one
blank cell and advances the head into it; a Stay move changes neither the
head index nor the tape. -/
theorem moveHead_policy (blank : String) (tape : List String) (head_index : Nat) :
    (moveHead blank 0 "L" tape = (0, blank :: tape) ∧
      (blank :: tape).length = tape.length + 1 ∧
      (∀ i, (blank :: tape).getD (i + 1) "" = tape.getD i "")) ∧
    (0 < head_index → moveHead blank head_index "L" tape = (head_index - 1, tape)) ∧
    (head_index + 1 = tape.length →
      moveHead blank head_index "R" tape = (head_index + 1, tape ++ [blank]) ∧
      (tape ++ [blank]).length = tape.length + 1 ∧
      (tape ++ [blank]).getD (head_index + 1) "" = blank) ∧
    (moveHead blank head_index "S" tape = (head_index, tape)) := by
  refine ⟨⟨?_, ?_, ?_⟩, ?_, ?_, ?_⟩
  · simp [moveHead]
  · simp
  · intro i; simp
  · intro h
    simp [moveHead, Nat.pos_iff_ne_zero.mp h]
  · intro h
    refine ⟨by simp [moveHead, h], by simp, ?_⟩
    have : (tape ++ [blank]).getD (head_index + 1) "" =
        (tape ++ [blank]).getD tape.length "" := by rw [h]
    rw [this]
    simp [List.getD_append_right]
  · simp [moveHead]

/-- C2 witness: the four movement cases evaluated on the concrete tape
`["a", "b"]` with blank `"B"`. -/
theorem moveHead_policy_witness :
    moveHead "B" 0 "L" ["a", "b"] = (0, ["B", "a", "b"]) ∧
      moveHead "B" 1 "L" ["a", "b"] = (0, ["a", "b"]) ∧
      moveHead "B" 1 "R" ["a", "b"] = (2, ["a", "b", "B"]) ∧
      moveHead "B" 1 "S" ["a", "b"] = (1, ["a", "b"]) :=
  ⟨(moveHead_policy "B" ["a", "b"] 1).1.1,
    (moveHead_policy "B" ["a", "b"] 1).2.1 (by decide),
    ((moveHead_policy "B" ["a", "b"] 1).2.2.1 (by decide)).1,
    (moveHead_policy "B" ["a", "b"] 1).2.2.2⟩

end TM

namespace TM

/-- The step loop only ever appends snapshots to the history it is given. -/
theorem runLoop_extends (m : Machine) :
    ∀ fuel tape head_index current_state history steps trace verdict,
      m.runLoop fuel tape head_index current_state history steps =
        some (trace, verdict) →
      ∃ ext, trace = history ++ ext := by
  intro fuel
  induction fuel with
  | zero => intro _ _ _ _ _ _ _ h; simp [Machine.runLoop] at h
  | succ fuel ih =>
    intro tape head_index current_state history steps trace verdict h
    rw [Machine.runLoop] at h
    cases hl : lookupTransition m.transition_map
        (current_state, tape.getD head_index "") with
    | none =>
      rw [hl] at h
      simp at h
      exact ⟨[], by simp [h.1]⟩
    | some t =>
      rw [hl] at h
      simp only at h
      split at h
      · simp at h
        exact ⟨_, h.1.symm⟩
      · split at h
        · split at h
          · simp at h
            exact ⟨_, h.1.symm⟩
          · obtain ⟨ext, hext⟩ := ih _ _ _ _ _ _ _ h
            exact ⟨_ :: ext, by simpa using hext⟩
        · obtain ⟨ext, hext⟩ := ih _ _ _ _ _ _ _ h
          exact ⟨_ :: ext, by simpa using hext⟩

/-- With a finite step ceiling `n`, fuel `n + 1 - steps` is enough for the
loop to return. -/
theorem runLoop_total (m : Machine) (n : Nat) (hms : m.max_steps = some n) :
    ∀ fuel steps, steps ≤ n → n + 1 ≤ fuel + steps →
      ∀ tape head_index current_state history,
        (m.runLoop fuel tape head_index current_state history steps).isSome := by
  intro fuel
  induction fuel with
  | zero => intro steps h1 h2; omega
  | succ fuel ih =>
    intro steps h1 h2 tape head_index current_state history
    rw [Machine.runLoop]
    cases hl : lookupTransition m.transition_map
        (current_state, tape.getD head_index "") with
    | none => simp
    | some t =>
      simp only
      split
      · simp
      · rw [hms]
        simp only
        split
        · simp
        · next hceil =>
          exact ih (steps + 1) (by omega) (by omega) _ _ _ _

end TM

namespace TM

/-- A one-state machine whose single rule `(q0, "0") -> (0, S, q0)` loops
forever on input `0`; no accept states.  Used as a concrete test machine. -/
def tLoop : Transition :=
  { current_state := "q0", read_symbol := "0", write_symbol := "0",
    move := "S", next_state := "q0" }

/-- The configuration of the looping test machine. -/
def loopConfig : MachineConfig :=
  { states := ["q0"], input_alphabet := ["0"], tape_alphabet := ["0", "B"],
    initial_state := "q0", accept_states := [], transitions := [tLoop] }

/-- The looping test machine with a chosen step ceiling. -/
def loopMachine (ceiling : Option Nat) : Machine :=
  { config := loopConfig, max_steps := ceiling,
    transition_map := [(tLoop.signature, tLoop)] }

/-- C1: Halt by omission: whenever the step loop reads the symbol under the
head and the `(current state, symbol)` pair is absent from the transition
map, `run`'s loop returns at once with verdict rejected and the history
unchanged, so the trace length stays `steps + 1` (executed steps plus
one). -/
theorem halt_by_omission (m : Machine) (fuel : Nat) (tape : List String)
    (head_index : Nat) (current_state : String)
    (history : List InstantDescription) (steps : Nat)
    (hlen : history.length = steps + 1)
    (habsent : lookupTransition m.transition_map
      (current_state, tape.getD head_index "") = none) :
    m.runLoop (fuel + 1) tape head_index current_state history steps =
      some (history, false) ∧ history.length = steps + 1 := by
  rw [Machine.runLoop, habsent]
  exact ⟨rfl, hlen⟩

/-- C1 witness: the looping machine in state `q0` reading blank `B` (no rule
for `(q0, B)`) halts by omission: verdict `false`, no snapshot appended. -/
theorem halt_by_omission_witness :
    (loopMachine none).runLoop 1 ["B"] 0 "q0"
        [Machine.snapshot "q0" ["B"] 0] 0 =
      some ([Machine.snapshot "q0" ["B"] 0], false) ∧
      [Machine.snapshot "q0" ["B"] 0].length = 0 + 1 :=
  halt_by_omission (loopMachine none) 0 ["B"] 0 "q0"
    [Machine.snapshot "q0" ["B"] 0] 0 rfl (by decide)

/-- C10: When the step loop returns through the step-ceiling branch, the
verdict is `false`: the acceptance check runs first, so the ceiling branch
is only reached with a non-accepting current state, and its
`current state ∈ accept states` verdict expression is then false. -/
theorem ceiling_branch_rejects (m : Machine) (n fuel : Nat)
    (tape : List String) (head_index : Nat) (current_state : String)
    (history : List InstantDescription) (steps : Nat) (t : Transition)
    (hms : m.max_steps = some n)
    (hfound : lookupTransition m.transition_map
      (current_state, tape.getD head_index "") = some t)
    (hnotacc : t.next_state ∉ m.config.accept_states)
    (hceil : n ≤ steps + 1) :
    m.runLoop (fuel + 1) tape head_index current_state history steps =
      some (history ++ [Machine.snapshot t.next_state
        (moveHead m.config.blank_symbol head_index t.move
          (tape.set head_index t.write_symbol)).2
        (moveHead m.config.blank_symbol head_index t.move
          (tape.set head_index t.write_symbol)).1], false) := by
  rw [Machine.runLoop, hfound]
  simp only [hms, if_neg hnotacc, if_pos hceil]
  simp [hnotacc]

/-- C10 witness: the looping machine with ceiling 1, at step count 0, takes
its one allowed step and stops through the ceiling branch with verdict
`false`. -/
theorem ceiling_branch_rejects_witness :
    (loopMachine (some 1)).runLoop 1 ["0"] 0 "q0"
        [Machine.snapshot "q0" ["0"] 0] 0 =
      some ([Machine.snapshot "q0" ["0"] 0,
        Machine.snapshot "q0" ["0"] 0], false) :=
  ceiling_branch_rejects (loopMachine (some 1)) 1 0 ["0"] 0 "q0"
    [Machine.snapshot "q0" ["0"] 0] 0 tLoop rfl (by decide) (by decide)
    (by decide)

/-- C4: Step ceiling: if the ceiling is `n` and the loop executes its `n`-th
step (entering with `steps + 1 = n` and a history of `steps + 1` snapshots)
without that step halting by acceptance or omission, the loop stops with
`n + 1` snapshots and the verdict is accepted if and only if the current
state at that exact moment is an accept state. -/
theorem ceiling_stop (m : Machine) (n fuel : Nat)
    (tape : List String) (head_index : Nat) (current_state : String)
    (history : List InstantDescription) (steps : Nat) (t : Transition)
    (hms : m.max_steps = some n)
    (hlen : history.length = steps + 1)
    (hfound : lookupTransition m.transition_map
      (current_state, tape.getD head_index "") = some t)
    (hnotacc : t.next_state ∉ m.config.accept_states)
    (hstep : steps + 1 = n) :
    ∃ trace verdict,
      m.runLoop (fuel + 1) tape head_index current_state history steps =
        some (trace, verdict) ∧
      trace.length = n + 1 ∧
      (verdict = true ↔ t.next_state ∈ m.config.accept_states) := by
  refine ⟨history ++ [Machine.snapshot t.next_state
      (moveHead m.config.blank_symbol head_index t.move
        (tape.set head_index t.write_symbol)).2
      (moveHead m.config.blank_symbol head_index t.move
        (tape.set head_index t.write_symbol)).1],
    decide (t.next_state ∈ m.config.accept_states), ?_, ?_, ?_⟩
  · rw [Machine.runLoop, hfound]
    simp only [hms, if_neg hnotacc, if_pos (le_of_eq hstep.symm)]
  · simp [hlen, hstep]
  · simp

/-- C4 witness: the looping machine with ceiling 1 stops after exactly 1
step with 2 snapshots, verdict rejected (its state is never accepting). -/
theorem ceiling_stop_witness :
    ∃ trace verdict,
      (loopMachine (some 1)).runLoop 1 ["0"] 0 "q0"
          [Machine.snapshot "q0" ["0"] 0] 0 =
        some (trace, verdict) ∧
      trace.length = 1 + 1 ∧
      (verdict = true ↔ "q0" ∈ (loopMachine (some 1)).config.accept_states) :=
  ceiling_stop (loopMachine (some 1)) 1 0 ["0"] 0 "q0"
    [Machine.snapshot "q0" ["0"] 0] 0 tLoop rfl rfl (by decide) (by decide)
    rfl

end TM

namespace TM

/-- A machine whose initial state is its only accept state. -/
def acceptConfig : MachineConfig :=
  { states := ["q0"], input_alphabet := ["0"], tape_alphabet := ["0", "B"],
    initial_state := "q0", accept_states := ["q0"], transitions := [tLoop] }

/-- The immediately-accepting test machine. -/
def acceptMachine : Machine :=
  { config := acceptConfig, max_steps := none,
    transition_map := [(tLoop.signature, tLoop)] }

/-- C3: Immediate accept: for every input over the input alphabet, if the
initial state is an accept state then `run` executes no step and returns the
trace holding exactly the initial snapshot together with verdict accepted,
regardless of the input's content. -/
theorem immediate_accept (m : Machine) (input : List Char) (fuel : Nat)
    (hvalid : invalidSymbolsOf m.config.input_alphabet input = [])
    (hacc : m.config.initial_state ∈ m.config.accept_states) :
    m.run input fuel =
      .ok (some ([Machine.snapshot m.config.initial_state
        (initializeTape m.config.blank_symbol input) 0], true)) ∧
    [Machine.snapshot m.config.initial_state
      (initializeTape m.config.blank_symbol input) 0].length = 1 := by
  constructor
  · rw [Machine.run]
    simp [hvalid, hacc]
  · rfl

/-- C3 witness: the machine whose initial state `q0` accepts returns the
one-snapshot accepted trace on input `0`. -/
theorem immediate_accept_witness :
    acceptMachine.run ['0'] 0 =
      .ok (some ([Machine.snapshot "q0" (initializeTape "B" ['0']) 0], true)) ∧
    [Machine.snapshot "q0" (initializeTape "B" ['0']) 0].length = 1 :=
  immediate_accept acceptMachine ['0'] 0 (by decide) (by decide)

/-- C7: Termination and initial configuration: on any input over the input
alphabet, `run` with a finite step ceiling `n` returns (fuel `n + 1`
iterations always suffice), and the first snapshot of the trace has head
index 0, the initial state, and the tape built from the input's characters —
a single blank cell when the input is empty. -/
theorem run_terminates_initial (m : Machine) (n : Nat) (input : List Char)
    (hms : m.max_steps = some n)
    (hvalid : invalidSymbolsOf m.config.input_alphabet input = []) :
    ∃ trace verdict,
      m.run input (n + 1) = .ok (some (trace, verdict)) ∧
      trace.head? = some (Machine.snapshot m.config.initial_state
        (initializeTape m.config.blank_symbol input) 0) ∧
      (Machine.snapshot m.config.initial_state
        (initializeTape m.config.blank_symbol input) 0).head_position = 0 ∧
      (Machine.snapshot m.config.initial_state
        (initializeTape m.config.blank_symbol input) 0).state =
        m.config.initial_state ∧
      (input = [] →
        initializeTape m.config.blank_symbol input = [m.config.blank_symbol]) ∧
      (input ≠ [] →
        initializeTape m.config.blank_symbol input =
          input.map (fun c => String.singleton c)) := by
  have htape : (input = [] →
      initializeTape m.config.blank_symbol input = [m.config.blank_symbol]) ∧
      (input ≠ [] →
        initializeTape m.config.blank_symbol input =
          input.map (fun c => String.singleton c)) := by
    constructor
    · intro h; simp [initializeTape, h]
    · intro h; simp [initializeTape, h]
  rw [Machine.run]
  simp only [hvalid]
  by_cases hacc : m.config.initial_state ∈ m.config.accept_states
  · refine ⟨[Machine.snapshot m.config.initial_state
      (initializeTape m.config.blank_symbol input) 0], true, ?_, rfl, rfl, rfl,
      htape.1, htape.2⟩
    simp [hacc]
  · have htot := runLoop_total m n hms (n + 1) 0 (Nat.zero_le n) (by omega)
      (initializeTape m.config.blank_symbol input) 0 m.config.initial_state
      [Machine.snapshot m.config.initial_state
        (initializeTape m.config.blank_symbol input) 0]
    obtain ⟨⟨trace, verdict⟩, hres⟩ := Option.isSome_iff_exists.mp htot
    obtain ⟨ext, hext⟩ := runLoop_extends m (n + 1) _ _ _ _ _ _ _ hres
    refine ⟨trace, verdict, ?_, ?_, rfl, rfl, htape.1, htape.2⟩
    · simp [hacc, hres]
    · rw [hext]; rfl

/-- C7 witness: the looping machine with ceiling 2 on input `0` returns, and
the first snapshot is the initial configuration. -/
theorem run_terminates_initial_witness :
    ∃ trace verdict,
      (loopMachine (some 2)).run ['0'] (2 + 1) = .ok (some (trace, verdict)) ∧
      trace.head? = some (Machine.snapshot "q0" (initializeTape "B" ['0']) 0) ∧
      (Machine.snapshot "q0" (initializeTape "B" ['0']) 0).head_position = 0 ∧
      (Machine.snapshot "q0" (initializeTape "B" ['0']) 0).state = "q0" ∧
      ((['0'] : List Char) = [] → initializeTape "B" ['0'] = ["B"]) ∧
      ((['0'] : List Char) ≠ [] →
        initializeTape "B" ['0'] = ['0'].map (fun c => String.singleton c)) :=
  run_terminates_initial (loopMachine (some 2)) 2 ['0'] rfl (by decide)

end TM

namespace TM

/-- C5: `run` fails with `InvalidSymbol` if and only if the input contains a
character outside the input alphabet, the error carries the offending
characters deduplicated and sorted, and those characters are exactly the
input characters outside the input alphabet. -/
theorem invalid_symbol_spec (m : Machine) (input : List Char) (fuel : Nat) :
    (m.run input fuel = .error (.invalidSymbol
        (sortedDedup (invalidSymbolsOf m.config.input_alphabet input))) ↔
      ∃ ch ∈ input, String.singleton ch ∉ m.config.input_alphabet) ∧
    List.Sorted (· ≤ ·)
      (sortedDedup (invalidSymbolsOf m.config.input_alphabet input)) ∧
    (sortedDedup (invalidSymbolsOf m.config.input_alphabet input)).Nodup ∧
    (∀ ch, ch ∈ sortedDedup (invalidSymbolsOf m.config.input_alphabet input) ↔
      ch ∈ input ∧ String.singleton ch ∉ m.config.input_alphabet) := by
  have hmem : ∀ ch,
      ch ∈ sortedDedup (invalidSymbolsOf m.config.input_alphabet input) ↔
        ch ∈ input ∧ String.singleton ch ∉ m.config.input_alphabet := by
    intro ch
    unfold sortedDedup invalidSymbolsOf
    rw [(List.mergeSort_perm _ _).mem_iff, List.mem_dedup, List.mem_filter]
    simp
  refine ⟨?_, ?_, ?_, hmem⟩
  · constructor
    · intro herr
      by_contra hnone
      push_neg at hnone
      have hempty : invalidSymbolsOf m.config.input_alphabet input = [] := by
        unfold invalidSymbolsOf
        rw [List.filter_eq_nil_iff]
        intro ch hch
        simpa using hnone ch hch
      rw [Machine.run] at herr
      simp only [hempty] at herr
      rw [if_neg (fun h => h rfl)] at herr
      split at herr <;> exact Except.noConfusion herr
    · intro ⟨ch, hch, hbad⟩
      have hne : invalidSymbolsOf m.config.input_alphabet input ≠ [] := by
        intro h
        have : ch ∈ invalidSymbolsOf m.config.input_alphabet input := by
          unfold invalidSymbolsOf
          rw [List.mem_filter]
          simpa using ⟨hch, hbad⟩
        rw [h] at this
        exact absurd this (List.not_mem_nil ch)
      rw [Machine.run]
      simp [hne]
  · exact List.sorted_mergeSort' _
  · exact ((List.mergeSort_perm _ _).symm.nodup
      (List.nodup_dedup _))

/-- C5 witness: input `2` against alphabet `{0}` yields the `InvalidSymbol`
error with offending-characters list exactly `[2]`, sorted and
duplicate-free. -/
theorem invalid_symbol_spec_witness :
    ((loopMachine none).run ['2'] 0 = .error (.invalidSymbol
        (sortedDedup (invalidSymbolsOf ["0"] ['2']))) ↔
      ∃ ch ∈ ['2'], String.singleton ch ∉ ["0"]) ∧
    List.Sorted (· ≤ ·) (sortedDedup (invalidSymbolsOf ["0"] ['2'])) ∧
    (sortedDedup (invalidSymbolsOf ["0"] ['2'])).Nodup ∧
    (∀ ch, ch ∈ sortedDedup (invalidSymbolsOf ["0"] ['2']) ↔
      ch ∈ ['2'] ∧ String.singleton ch ∉ ["0"]) :=
  invalid_symbol_spec (loopMachine none) ['2'] 0

/-- C8: Determinism: two engines constructed from the same definition with
the same step ceiling are equal, and `run` on them returns identical traces
and verdicts for every input (the embedding is a pure function of the
definition: `run` mutates nothing). -/
theorem run_deterministic (config : MachineConfig) (ceiling : Option Nat)
    (m1 m2 : Machine)
    (h1 : Machine.make config ceiling = .ok m1)
    (h2 : Machine.make config ceiling = .ok m2) :
    m1 = m2 ∧ ∀ input fuel, m1.run input fuel = m2.run input fuel := by
  have h : m1 = m2 := by
    rw [h1] at h2
    exact Except.ok.inj h2
  exact ⟨h, fun input fuel => by rw [h]⟩

/-- C8 witness: two constructions of the looping machine coincide and run
identically. -/
theorem run_deterministic_witness :
    loopMachine none = loopMachine none ∧
      ∀ input fuel,
        (loopMachine none).run input fuel = (loopMachine none).run input fuel :=
  run_deterministic loopConfig none (loopMachine none) (loopMachine none)
    rfl rfl

end TM

namespace TM

/-- Well-formedness of a configuration snapshot: non-empty state name,
non-negative head index, non-empty tape text, and a head index strictly
below the tape text's length (every tape cell renders as at least one
character, so the cell count bounds the text length from below). -/
def InstantDescription.wf (id : InstantDescription) : Prop :=
  id.state ≠ "" ∧ 0 ≤ id.head_position ∧ id.tape ≠ "" ∧
    id.head_position < id.tape.length

/-- `_move_head` keeps the head inside the tape. -/
theorem moveHead_lt (blank move : String) (head_index : Nat)
    (tape : List String) (h : head_index < tape.length) :
    (moveHead blank head_index move tape).1 <
      (moveHead blank head_index move tape).2.length := by
  unfold moveHead
  split
  · split
    · simp
    · simpa using Nat.lt_of_le_of_lt (Nat.pred_le head_index) h
  · split
    · split
      · simpa using h
      · show head_index + 1 < tape.length
        omega
    · simpa using h

theorem length_pos_of_ne_empty (s : String) (h : s ≠ "") : 0 < s.length := by
  cases s with
  | mk data =>
    cases data with
    | nil => exact absurd rfl h
    | cons c cs => simp [String.length]

theorem foldl_append_length (l : List String) :
    ∀ init : String, (l.foldl (fun r s => r ++ s) init).length =
      init.length + (l.map String.length).sum := by
  induction l with
  | nil => intro init; simp
  | cons a l ih =>
    intro init
    rw [List.foldl_cons, ih, String.length_append, List.map_cons,
      List.sum_cons]
    omega

theorem join_length (l : List String) :
    (String.join l).length = (l.map String.length).sum := by
  unfold String.join
  rw [foldl_append_length l ""]
  simp

/-- With every cell non-empty, the joined tape text is at least as long as
the cell count. -/
theorem length_le_join_length (l : List String) (h : ∀ s ∈ l, s ≠ "") :
    l.length ≤ (String.join l).length := by
  rw [join_length]
  induction l with
  | nil => simp
  | cons a l ih =>
    rw [List.map_cons, List.sum_cons, List.length_cons]
    have ha : 0 < a.length :=
      length_pos_of_ne_empty a (h a (List.mem_cons_self a l))
    have hl : l.length ≤ (l.map String.length).sum :=
      ih (fun s hs => h s (List.mem_cons_of_mem a hs))
    omega

/-- A snapshot taken with the head inside a tape of non-empty cells is
well-formed. -/
theorem snapshot_wf_of (current_state : String) (tape : List String)
    (head_index : Nat) (hstate : current_state ≠ "")
    (hcells : ∀ s ∈ tape, s ≠ "") (hhead : head_index < tape.length) :
    (Machine.snapshot current_state tape head_index).wf := by
  have hlen : tape.length ≤ (String.join tape).length :=
    length_le_join_length tape hcells
  refine ⟨hstate, Nat.zero_le _, ?_, ?_⟩
  · show String.join tape ≠ ""
    intro hj
    have hz : (String.join tape).length = 0 := by rw [hj]; rfl
    omega
  · show head_index < (String.join tape).length
    omega

theorem set_cells_ne_empty {tape : List String} {v : String} (i : Nat)
    (h : ∀ s ∈ tape, s ≠ "") (hv : v ≠ "") :
    ∀ s ∈ tape.set i v, s ≠ "" := by
  intro s hs
  rcases List.mem_or_eq_of_mem_set hs with h1 | h1
  · exact h s h1
  · rw [h1]; exact hv

/-- `_move_head` only ever adds blank cells. -/
theorem moveHead_cells_ne_empty (blank move : String) (head_index : Nat)
    (tape : List String) (h : ∀ s ∈ tape, s ≠ "") (hb : blank ≠ "") :
    ∀ s ∈ (moveHead blank head_index move tape).2, s ≠ "" := by
  intro s hs
  unfold moveHead at hs
  split at hs
  · split at hs
    · rcases List.mem_cons.mp hs with h1 | h1
      · rw [h1]; exact hb
      · exact h s h1
    · exact h s hs
  · split at hs
    · split at hs
      · rcases List.mem_append.mp hs with h1 | h1
        · exact h s h1
        · rw [List.mem_singleton.mp h1]; exact hb
      · exact h s hs
    · exact h s hs

/-- The initial tape's cells are non-empty when the blank symbol is. -/
theorem initializeTape_cells_ne_empty (blank : String) (input : List Char)
    (hb : blank ≠ "") :
    ∀ s ∈ initializeTape blank input, s ≠ "" := by
  intro s hs
  unfold initializeTape at hs
  split at hs
  · rw [List.mem_singleton.mp hs]; exact hb
  · obtain ⟨c, _, hc⟩ := List.mem_map.mp hs
    rw [← hc]
    intro hcontra
    have hlen := congrArg String.length hcontra
    rw [show (String.singleton c).length = 1 from rfl] at hlen
    exact absurd hlen (by decide)

/-- The step loop preserves snapshot well-formedness: with a non-empty
blank symbol, non-empty write/destination fields throughout the map, the
head inside a tape of non-empty cells, and a well-formed history, every
snapshot of the returned trace is well-formed. -/
theorem runLoop_wf (m : Machine)
    (hblank : m.config.blank_symbol ≠ "")
    (htrans : ∀ p ∈ m.transition_map,
      p.2.write_symbol ≠ "" ∧ p.2.next_state ≠ "") :
    ∀ fuel tape head_index current_state history steps trace verdict,
      head_index < tape.length →
      (∀ s ∈ tape, s ≠ "") →
      (∀ id ∈ history, id.wf) →
      m.runLoop fuel tape head_index current_state history steps =
        some (trace, verdict) →
      ∀ id ∈ trace, id.wf := by
  intro fuel
  induction fuel with
  | zero => intro _ _ _ _ _ _ _ _ _ _ h; simp [Machine.runLoop] at h
  | succ fuel ih =>
    intro tape head_index current_state history steps trace verdict hhead
      htape hhist h
    rw [Machine.runLoop] at h
    cases hl : lookupTransition m.transition_map
        (current_state, tape.getD head_index "") with
    | none =>
      rw [hl] at h
      simp at h
      rw [← h.1]
      exact hhist
    | some t =>
      rw [hl] at h
      simp only at h
      have htprops : t.write_symbol ≠ "" ∧ t.next_state ≠ "" := by
        have : ∃ p, List.find? (fun p => p.1 =
            (current_state, tape.getD head_index "")) m.transition_map =
            some p ∧ p.2 = t := by
          unfold lookupTransition at hl
          cases hfind : List.find? (fun p => p.1 =
              (current_state, tape.getD head_index "")) m.transition_map with
          | none => rw [hfind] at hl; simp at hl
          | some p => rw [hfind] at hl; simp at hl; exact ⟨p, rfl, hl⟩
        obtain ⟨p, hfind, hp⟩ := this
        have hmem := List.mem_of_find?_eq_some hfind
        rw [← hp]
        exact htrans p hmem
      have hcells1 : ∀ s ∈ tape.set head_index t.write_symbol, s ≠ "" :=
        set_cells_ne_empty head_index htape htprops.1
      have hcells2 : ∀ s ∈ (moveHead m.config.blank_symbol head_index t.move
          (tape.set head_index t.write_symbol)).2, s ≠ "" :=
        moveHead_cells_ne_empty _ _ _ _ hcells1 hblank
      have hhead1 : (moveHead m.config.blank_symbol head_index t.move
            (tape.set head_index t.write_symbol)).1 <
          (moveHead m.config.blank_symbol head_index t.move
            (tape.set head_index t.write_symbol)).2.length :=
        moveHead_lt _ _ _ _ (by simpa using hhead)
      have hhist1 : ∀ id ∈ history ++ [Machine.snapshot t.next_state
          (moveHead m.config.blank_symbol head_index t.move
            (tape.set head_index t.write_symbol)).2
          (moveHead m.config.blank_symbol head_index t.move
            (tape.set head_index t.write_symbol)).1], id.wf := by
        intro id hid
        rcases List.mem_append.mp hid with hin | hin
        · exact hhist id hin
        · rw [List.mem_singleton.mp hin]
          exact snapshot_wf_of _ _ _ htprops.2 hcells2 hhead1
      split at h
      · simp at h
        rw [← h.1]
        exact hhist1
      · split at h
        · split at h
          · simp at h
            rw [← h.1]
            exact hhist1
          · exact ih _ _ _ _ _ _ _ hhead1 hcells2 hhist1 h
        · exact ih _ _ _ _ _ _ _ hhead1 hcells2 hhist1 h

/-- The initial tape is never empty. -/
theorem initializeTape_length_pos (blank : String) (input : List Char) :
    0 < (initializeTape blank input).length := by
  unfold initializeTape
  split
  · simp
  · next h =>
    simp only [List.length_map]
    cases input with
    | nil => simp at h
    | cons c cs => simp

/-- A rule `(q0, 0) -> (0, R, q0)` that marches right. -/
def tRight : Transition :=
  { current_state := "q0", read_symbol := "0", write_symbol := "0",
    move := "R", next_state := "q0" }

/-- A configuration that passes every `MachineConfig` and `Transition`
validation yet declares the empty string as its blank symbol (nothing
forbids `""` as a tape-alphabet member or as `blank_symbol`). -/
def emptyBlankConfig : MachineConfig :=
  { states := ["q0"], input_alphabet := ["0"], tape_alphabet := ["0", ""],
    initial_state := "q0", accept_states := [], transitions := [tRight],
    blank_symbol := "" }

/-- The machine over `emptyBlankConfig` with step ceiling 1. -/
def emptyBlankMachine : Machine :=
  { config := emptyBlankConfig, max_steps := some 1,
    transition_map := [(tRight.signature, tRight)] }

/-- C9 counterexample: with an empty blank symbol — accepted by every
validation — a Right move at the last index appends an empty cell, and the
run's second snapshot has head index 1 on the non-empty tape text `0` of
length 1, so its head index is not strictly below the tape's length. -/
theorem head_exceeds_tape_counterexample :
    emptyBlankConfig.valid ∧
    Machine.make emptyBlankConfig (some 1) = .ok emptyBlankMachine ∧
    emptyBlankMachine.run ['0'] 1 =
      .ok (some ([InstantDescription.mk "q0" "0" 0,
        InstantDescription.mk "q0" "0" 1], false)) ∧
    (InstantDescription.mk "q0" "0" 1).tape ≠ "" ∧
    ¬ ((InstantDescription.mk "q0" "0" 1).head_position <
        (InstantDescription.mk "q0" "0" 1).tape.length) := by
  refine ⟨by decide, rfl, ?_, by decide, by decide⟩
  rfl

/-- C9 amended: for a machine built from a validated configuration whose
blank symbol is non-empty, every configuration snapshot of any successful
run has a non-empty state name, a non-negative head index, a non-empty tape
text, and a head index strictly below the tape text's length. -/
theorem run_snapshots_wf (config : MachineConfig) (ceiling : Option Nat)
    (m : Machine) (input : List Char) (fuel : Nat)
    (trace : List InstantDescription) (verdict : Bool)
    (hmk : Machine.make config ceiling = .ok m)
    (hcfg : config.valid)
    (hblank : config.blank_symbol ≠ "")
    (hrun : m.run input fuel = .ok (some (trace, verdict))) :
    ∀ id ∈ trace, id.wf := by
  have hconfig : m.config = config := by
    unfold Machine.make at hmk
    cases hbuild : buildTransitionMap config.states config.transitions [] with
    | error e => rw [hbuild] at hmk; exact Except.noConfusion hmk
    | ok tm =>
      rw [hbuild] at hmk
      simp only [Except.map] at hmk
      cases hmk
      rfl
  have hblankm : m.config.blank_symbol ≠ "" := by
    rw [hconfig]; exact hblank
  have htrans : ∀ p ∈ m.transition_map,
      p.2.write_symbol ≠ "" ∧ p.2.next_state ≠ "" := by
    have hsub : ∀ p ∈ m.transition_map, p.2 ∈ config.transitions := by
      unfold Machine.make at hmk
      cases hbuild : buildTransitionMap config.states config.transitions [] with
      | error e => rw [hbuild] at hmk; exact Except.noConfusion hmk
      | ok tm =>
        rw [hbuild] at hmk
        simp only [Except.map] at hmk
        cases hmk
        have : ∀ states ts acc map, buildTransitionMap states ts acc = .ok map →
            ∀ p ∈ map, p ∈ acc ∨ p.2 ∈ ts := by
          intro states ts
          induction ts with
          | nil =>
            intro acc map hok p hp
            unfold buildTransitionMap at hok
            cases hok
            exact Or.inl hp
          | cons t rest ihts =>
            intro acc map hok p hp
            unfold buildTransitionMap at hok
            split at hok
            · exact Except.noConfusion hok
            · split at hok
              · exact Except.noConfusion hok
              · split at hok
                · exact Except.noConfusion hok
                · rcases ihts _ _ hok p hp with hin | hin
                  · rcases List.mem_append.mp hin with hin2 | hin2
                    · exact Or.inl hin2
                    · refine Or.inr (List.mem_cons.mpr (Or.inl ?_))
                      rw [List.mem_singleton.mp hin2]
                  · exact Or.inr (List.mem_cons.mpr (Or.inr hin))
        intro p hp
        rcases this config.states config.transitions [] tm hbuild p hp with
          hin | hin
        · exact absurd hin (List.not_mem_nil p)
        · exact hin
    intro p hp
    have hvalid := hcfg.2.2.2.2.2.2.2 p.2 (hsub p hp)
    exact ⟨hvalid.2.2.2.1, hvalid.2.2.2.2⟩
  rw [Machine.run] at hrun
  by_cases hinv : invalidSymbolsOf m.config.input_alphabet input = []
  · simp only [hinv] at hrun
    rw [if_neg (fun h => h rfl)] at hrun
    have hinit_ne : m.config.initial_state ≠ "" := by
      rw [hconfig]; exact hcfg.2.2.1
    have hwf0 : ∀ id ∈ [Machine.snapshot m.config.initial_state
        (initializeTape m.config.blank_symbol input) 0], id.wf := by
      intro id hid
      rw [List.mem_singleton.mp hid]
      exact snapshot_wf_of _ _ _ hinit_ne
        (initializeTape_cells_ne_empty m.config.blank_symbol input hblankm)
        (initializeTape_length_pos m.config.blank_symbol input)
    split at hrun
    · simp at hrun
      rw [← hrun.1]
      exact hwf0
    · simp only [Except.ok.injEq] at hrun
      exact runLoop_wf m hblankm htrans fuel _ 0 _ _ 0 trace verdict
        (initializeTape_length_pos m.config.blank_symbol input)
        (initializeTape_cells_ne_empty m.config.blank_symbol input hblankm)
        hwf0 hrun
  · simp only [hinv] at hrun
    rw [if_pos hinv] at hrun
    exact Except.noConfusion hrun

/-- C9 amended witness: a concrete snapshot produced by the looping machine
(blank `B`, ceiling 1) on input `0` is well-formed. -/
theorem run_snapshots_wf_witness :
    (Machine.snapshot "q0" ["0"] 0).wf :=
  run_snapshots_wf loopConfig (some 1) (loopMachine (some 1)) ['0'] 1
    [Machine.snapshot "q0" ["0"] 0, Machine.snapshot "q0" ["0"] 0] false
    rfl (by decide) (by decide) rfl (Machine.snapshot "q0" ["0"] 0)
    (List.mem_cons_self (Machine.snapshot "q0" ["0"] 0)
      [Machine.snapshot "q0" ["0"] 0])

end TM

namespace TM

end TM

namespace TM

end TM
